import Mathlib

/-!
Verification development for a CSV contact-record cleaner.

The program ingests vendor CSV files, resolves vendor column names onto the
roles name / address (used as last name) / email / phone, normalizes each
field, projects onto the fixed five-column schema
First Name, Last Name, Email, Phone, Status, prunes an all-empty leading
row, merges several cleaned tables, and serializes the result as CSV.

Embedding conventions:
* Tables are column-major, exactly as the program builds them: an ordered
  list of (column name, cells) pairs, every cell a string.
* Character semantics follow the host language where a theorem depends on
  them: the digit class is the full Unicode decimal-digit (Nd) table
  (pyIsDigit below, what the regular-expression digit class matches); case
  conversion (pyUpperChar / pyLowerChar) maps the 26 ASCII letters
  one-to-one and expands the German sharp s to SS, keeping every other
  character (including the right single quotation mark) unchanged — no
  theorem below depends on the case behavior of characters outside that
  set; whitespace is the ASCII whitespace set.
* Byte streams are modelled as character sequences (the UTF-8 byte level is
  a bijection on the valid texts involved and is elided); the CSV parsing
  performed by the host library is modelled by an executable CSV state
  machine (parse_csv below) with the options the program passes: all cells
  kept as literal strings, no missing-value conversion, blank lines
  skipped, minimal quoting with doubled quote characters.
-/

namespace HatchCsv

/-! ## Character model -/

def asciiSpace : List Char := [' ', '\t', '\n', '\x0b', '\x0c', '\r']

def isSpace (c : Char) : Bool := asciiSpace.contains c

def lowerAlpha : List Char :=
  ['a', 'b', 'c', 'd', 'e', 'f', 'g', 'h', 'i', 'j', 'k', 'l', 'm',
   'n', 'o', 'p', 'q', 'r', 's', 't', 'u', 'v', 'w', 'x', 'y', 'z']

def upperAlpha : List Char :=
  ['A', 'B', 'C', 'D', 'E', 'F', 'G', 'H', 'I', 'J', 'K', 'L', 'M',
   'N', 'O', 'P', 'Q', 'R', 'S', 'T', 'U', 'V', 'W', 'X', 'Y', 'Z']

/-- One-to-one case table for the 26 ASCII letters, identity elsewhere. -/
def ascUpper (c : Char) : Char :=
  (((lowerAlpha.zip upperAlpha).find? (fun p => p.1 = c)).map (fun p => p.2)).getD c

/-- One-to-one case table for the 26 ASCII letters, identity elsewhere. -/
def ascLower (c : Char) : Char :=
  (((upperAlpha.zip lowerAlpha).find? (fun p => p.1 = c)).map (fun p => p.2)).getD c

/-- Character-level model of the str.upper mapping: ASCII letters map
one-to-one and the German sharp s (latin-1 0xDF, reachable through the
reader's latin-1 fallback) expands to SS; any other character is kept
unchanged. -/
def pyUpperChar (c : Char) : List Char :=
  if c = 'ß' then ['S', 'S'] else [ascUpper c]

/-- Character-level model of the str.lower mapping, one-to-one on the
modelled repertoire. -/
def pyLowerChar (c : Char) : List Char := [ascLower c]

/-- String-level str.lower: each character through pyLowerChar. -/
def pyLowerStr (s : String) : String := String.mk ((s.data.map pyLowerChar).flatten)

/-- Trim surrounding whitespace, as the str.strip method does. -/
def pyStrip (s : String) : String :=
  String.mk (((s.data.dropWhile isSpace).reverse.dropWhile isSpace).reverse)

/-! ## Field normalizers (from the source) -/

/-- The characters the name capitalizer splits on: hyphen, right single
quotation mark, ASCII apostrophe. -/
def isDelim (c : Char) : Bool := c == '-' || c == '’' || c == '\x27'

/-- Split a character list at every delimiter, keeping each delimiter as a
standalone singleton segment, with (possibly empty) ordinary segments
between and around them.  Mirrors splitting on a regular expression whose
single group captures the delimiter. -/
def splitKeep : List Char → List (List Char)
  | [] => [[]]
  | c :: cs =>
    if isDelim c then [] :: [c] :: splitKeep cs
    else
      match splitKeep cs with
      | [] => [[c]]
      | seg :: rest => (c :: seg) :: rest

/-- Uppercase the first character, lowercase the remainder. -/
def cap_seg : List Char → List Char
  | [] => []
  | c :: cs => pyUpperChar c ++ (cs.map pyLowerChar).flatten

def delimPieces : List (List Char) := [['-'], ['’'], ['\x27']]

/-- Capitalize segments of a name separated by hyphens or apostrophes. -/
def smart_cap_piece (piece : String) : String :=
  if piece = "" then ""
  else String.mk (((splitKeep piece.data).map
    (fun p => if p ∈ delimPieces then p else cap_seg p)).flatten)

/-- First whitespace-free token of a stripped string. -/
def firstToken (s : String) : List Char := s.data.takeWhile (fun c => !isSpace c)

/-- Extract and capitalize the first token from a full name. -/
def extract_first_name (nm : String) : String :=
  if nm = "" then ""
  else
    smart_cap_piece
      (if pyStrip nm ≠ "" then String.mk (firstToken (pyStrip nm)) else "")

/-- The Unicode decimal-digit (category Nd) codepoint ranges: what the
host language's regular-expression digit class matches, and hence what its
non-digit class leaves in place. -/
def ndRanges : List (Nat × Nat) :=
  [(0x0030, 0x0039), (0x0660, 0x0669), (0x06F0, 0x06F9), (0x07C0, 0x07C9),
   (0x0966, 0x096F), (0x09E6, 0x09EF), (0x0A66, 0x0A6F), (0x0AE6, 0x0AEF),
   (0x0B66, 0x0B6F), (0x0BE6, 0x0BEF), (0x0C66, 0x0C6F), (0x0CE6, 0x0CEF),
   (0x0D66, 0x0D6F), (0x0DE6, 0x0DEF), (0x0E50, 0x0E59), (0x0ED0, 0x0ED9),
   (0x0F20, 0x0F29), (0x1040, 0x1049), (0x1090, 0x1099), (0x17E0, 0x17E9),
   (0x1810, 0x1819), (0x1946, 0x194F), (0x19D0, 0x19D9), (0x1A80, 0x1A89),
   (0x1A90, 0x1A99), (0x1B50, 0x1B59), (0x1BB0, 0x1BB9), (0x1C40, 0x1C49),
   (0x1C50, 0x1C59), (0xA620, 0xA629), (0xA8D0, 0xA8D9), (0xA900, 0xA909),
   (0xA9D0, 0xA9D9), (0xA9F0, 0xA9F9), (0xAA50, 0xAA59), (0xABF0, 0xABF9),
   (0xFF10, 0xFF19), (0x104A0, 0x104A9), (0x10D30, 0x10D39), (0x11066, 0x1106F),
   (0x110F0, 0x110F9), (0x11136, 0x1113F), (0x111D0, 0x111D9), (0x112F0, 0x112F9),
   (0x11450, 0x11459), (0x114D0, 0x114D9), (0x11650, 0x11659), (0x116C0, 0x116C9),
   (0x11730, 0x11739), (0x118E0, 0x118E9), (0x11950, 0x11959), (0x11C50, 0x11C59),
   (0x11D50, 0x11D59), (0x11DA0, 0x11DA9), (0x11F50, 0x11F59), (0x16A60, 0x16A69),
   (0x16AC0, 0x16AC9), (0x16B50, 0x16B59), (0x1D7CE, 0x1D7FF), (0x1E140, 0x1E149),
   (0x1E2F0, 0x1E2F9), (0x1E4F0, 0x1E4F9), (0x1E950, 0x1E959), (0x1FBF0, 0x1FBF9)]

/-- A Unicode decimal digit. -/
def pyIsDigit (c : Char) : Bool :=
  ndRanges.any (fun r => r.1 ≤ c.toNat ∧ c.toNat ≤ r.2)

/-- Strip non-digits (every character that is not a Unicode decimal digit)
and a leading 1 for long numbers. -/
def normalize_phone (raw : String) : String :=
  if raw = "" then ""
  else
    let digits := raw.data.filter pyIsDigit
    if digits.head? = some '1' ∧ digits.length ≥ 11 then String.mk (digits.drop 1)
    else String.mk digits

/-- The email normalization the projector applies inline: trim surrounding
whitespace, lowercase. -/
def normalize_email (raw : String) : String := pyLowerStr (pyStrip raw)

/-! ## Tables -/

structure Table where
  cols : List (String × List String)
deriving DecidableEq

def colNames (t : Table) : List String := t.cols.map (fun c => c.1)

/-- Row count: length of the first column (0 for a column-less table). -/
def numRows (t : Table) : Nat := ((t.cols.head?).map (fun c => c.2.length)).getD 0

/-- Well-formed table: every column has the common row count. -/
def Wf (t : Table) : Prop := ∀ c ∈ t.cols, c.2.length = numRows t

/-- Cells of the column with the given exact name ([] when absent). -/
def getCol (t : Table) (nm : String) : List String :=
  ((t.cols.find? (fun c => c.1 = nm)).map (fun c => c.2)).getD []

/-! ## Column resolver (from the source's dict comprehension) -/

/-- Insertion-ordered map update with overwrite, mirroring dict assignment. -/
def dictInsert (m : List (String × String)) (k v : String) : List (String × String) :=
  if m.any (fun p => p.1 = k) then m.map (fun p => if p.1 = k then (k, v) else p)
  else m ++ [(k, v)]

/-- The lowercased-name-to-original-name dict built from the column names in
order, later columns overwriting earlier ones. -/
def buildColsDict (names : List String) : List (String × String) :=
  names.foldl (fun m c => dictInsert m (pyLowerStr c) c) []

def colsGet (t : Table) (k : String) : Option String :=
  ((buildColsDict (colNames t)).find? (fun p => p.1 = k)).map (fun p => p.2)

def emailSrc (t : Table) : Option String :=
  (colsGet t "email_address").orElse (fun _ => colsGet t "email")

def phoneSrc (t : Table) : Option String :=
  (colsGet t "phone_number").orElse (fun _ => colsGet t "phone")

/-! ## Record projector -/

def EXPECTED : List String := ["First Name", "Last Name", "Email", "Phone", "Status"]

/-- The five-column table the projector builds, before leading-row pruning
(the out value of the source's clean before its final if). -/
def cleanProjected (t : Table) : Table :=
  let n := numRows t
  let blank := List.replicate n ""
  let first := match colsGet t "name" with
    | some c => (getCol t c).map extract_first_name
    | none => blank
  let lastNm := match colsGet t "address" with
    | some c => getCol t c
    | none => blank
  let email := match emailSrc t with
    | some c => (getCol t c).map normalize_email
    | none => blank
  let phone := match phoneSrc t with
    | some c => (getCol t c).map normalize_phone
    | none => blank
  ⟨[("First Name", first), ("Last Name", lastNm), ("Email", email),
    ("Phone", phone), ("Status", blank)]⟩

/-- Row i of a table (absent cells read as empty strings). -/
def rowAt (t : Table) (i : Nat) : List String := t.cols.map (fun c => c.2.getD i "")

def dropFirstRow (t : Table) : Table := ⟨t.cols.map (fun c => (c.1, c.2.tail))⟩

/-- Drop the first row if all its fields are empty. -/
def pruneLeading (t : Table) : Table :=
  if numRows t ≠ 0 ∧ (rowAt t 0).all (fun s => s = "") then dropFirstRow t else t

/-- Clean the input table: project onto the fixed schema, then prune an
all-empty leading row. -/
def clean (t : Table) : Table := pruneLeading (cleanProjected t)

def tableRows (t : Table) : List (List String) :=
  (List.range (numRows t)).map (fun i => rowAt t i)

/-- Concatenation of same-schema tables, aligned by the first table's
column names, rows in input order. -/
def concatTables : List Table → Table
  | [] => ⟨[]⟩
  | t :: rest =>
    ⟨(colNames t).map (fun nm => (nm, ((t :: rest).map (fun u => getCol u nm)).flatten))⟩

/-! ## Serializer

The program delegates CSV rendering to its host library with the default
options: comma separator, minimal quoting (a field is quoted exactly when
it contains a separator, quote character, or line break, with quote
characters doubled inside quotes), a header row, newline row terminator,
UTF-8 output.  Bytes are modelled as the decoded character sequence. -/

structure CharFile where
  data : List Char
  pos : Nat
deriving DecidableEq

def seek0 (f : CharFile) : CharFile := { f with pos := 0 }

def readRest (f : CharFile) : List Char := f.data.drop f.pos

def runAttempt (tryEnc : Option String → List Char → Except Unit Table)
    (e : Option String) (f : CharFile) : Except Unit Table × CharFile :=
  (tryEnc e (readRest f), { f with pos := f.data.length })

def encCandidates : List (Option String) :=
  [some "utf-8", some "utf-8-sig", some "latin-1"]

def loadGo (tryEnc : Option String → List Char → Except Unit Table) :
    List (Option String) → CharFile → Except Unit Table × CharFile
  | [], f => runAttempt tryEnc none (seek0 f)
  | e :: es, f =>
    match runAttempt tryEnc e f with
    | (.ok t, f2) => (.ok t, f2)
    | (.error _, f2) => loadGo tryEnc es (seek0 f2)

/-- Attempt to load a CSV with several encodings: try each candidate in
order, rewinding the file after a failure; after all candidates fail,
rewind and make a final default attempt whose outcome is returned as is. -/
def load_csv_any (tryEnc : Option String → List Char → Except Unit Table)
    (f : CharFile) : Except Unit Table × CharFile :=
  loadGo tryEnc encCandidates f

/-! ## Definitions following the specification's words, for comparison -/

/-- Per the spec: the first successful attempt among utf-8, utf-8-sig and
latin-1, each applied to the whole input, and otherwise the final default
attempt, error and all. -/
def loadFirstSuccess (tryEnc : Option String → List Char → Except Unit Table)
    (data : List Char) : Except Unit Table :=
  match tryEnc (some "utf-8") data with
  | .ok t => .ok t
  | .error _ =>
    match tryEnc (some "utf-8-sig") data with
    | .ok t => .ok t
    | .error _ =>
      match tryEnc (some "latin-1") data with
      | .ok t => .ok t
      | .error _ => tryEnc none data

/-- Per the spec's description of the capitalizer: walk the token once; a
delimiter is kept and makes the next character a segment start; a segment's
first character is uppercased and the rest lowercased. -/
def smartCapSpecGo : Bool → List Char → List Char
  | _, [] => []
  | atStart, c :: cs =>
    if isDelim c then c :: smartCapSpecGo true cs
    else (if atStart then pyUpperChar c else pyLowerChar c) ++ smartCapSpecGo false cs

def smartCapSpec (s : String) : String := String.mk (smartCapSpecGo true s.data)

/-- Per the spec's description of phone normalization: keep only the ASCII
digits; when the digit string starts with 1 and is at least 11 long, drop
that leading 1. -/
def phoneSpec (s : String) : String :=
  let d := s.data.filter Char.isDigit
  if d.head? = some '1' ∧ 11 ≤ d.length then String.mk d.tail else String.mk d

/-- Per the spec: the rightmost column whose lowercased name is the key. -/
def lastMatching (names : List String) (k : String) : Option String :=
  (names.filter (fun c => pyLowerStr c = k)).getLast?

/-! ## Character lemmas -/

lemma ascUpper_of_not_mem {c : Char} (h : c ∉ lowerAlpha) : ascUpper c = c := by
  have hf : (lowerAlpha.zip upperAlpha).find? (fun p => p.1 = c) = none := by
    rw [List.find?_eq_none]
    intro p hp hpc
    obtain ⟨a, b⟩ := p
    have h1 : a = c := of_decide_eq_true hpc
    exact h (h1 ▸ (List.of_mem_zip hp).1)
  unfold ascUpper
  rw [hf]
  rfl

lemma ascLower_of_not_mem {c : Char} (h : c ∉ upperAlpha) : ascLower c = c := by
  have hf : (upperAlpha.zip lowerAlpha).find? (fun p => p.1 = c) = none := by
    rw [List.find?_eq_none]
    intro p hp hpc
    obtain ⟨a, b⟩ := p
    have h1 : a = c := of_decide_eq_true hpc
    exact h (h1 ▸ (List.of_mem_zip hp).1)
  unfold ascLower
  rw [hf]
  rfl

lemma ascUpper_mem_facts :
    ∀ c ∈ lowerAlpha, ascUpper (ascUpper c) = ascUpper c ∧ isDelim (ascUpper c) = false := by
  decide

lemma ascLower_mem_facts :
    ∀ c ∈ upperAlpha, ascLower (ascLower c) = ascLower c ∧ isDelim (ascLower c) = false := by
  decide

lemma ascUpper_idem (c : Char) : ascUpper (ascUpper c) = ascUpper c := by
  by_cases h : c ∈ lowerAlpha
  · exact (ascUpper_mem_facts c h).1
  · rw [ascUpper_of_not_mem h, ascUpper_of_not_mem h]

lemma ascLower_idem (c : Char) : ascLower (ascLower c) = ascLower c := by
  by_cases h : c ∈ upperAlpha
  · exact (ascLower_mem_facts c h).1
  · rw [ascLower_of_not_mem h, ascLower_of_not_mem h]

lemma isDelim_ascUpper {c : Char} (h : isDelim c = false) : isDelim (ascUpper c) = false := by
  by_cases hm : c ∈ lowerAlpha
  · exact (ascUpper_mem_facts c hm).2
  · rw [ascUpper_of_not_mem hm]
    exact h

lemma isDelim_ascLower {c : Char} (h : isDelim c = false) : isDelim (ascLower c) = false := by
  by_cases hm : c ∈ upperAlpha
  · exact (ascLower_mem_facts c hm).2
  · rw [ascLower_of_not_mem hm]
    exact h

lemma ascUpper_mem_ascii : ∀ c ∈ lowerAlpha, (ascUpper c).toNat < 128 := by
  decide

lemma ascUpper_ascii {c : Char} (h : c.toNat < 128) : (ascUpper c).toNat < 128 := by
  by_cases hm : c ∈ lowerAlpha
  · exact ascUpper_mem_ascii c hm
  · rw [ascUpper_of_not_mem hm]
    exact h

lemma pyUpperChar_ascii {c : Char} (h : c.toNat < 128) : pyUpperChar c = [ascUpper c] := by
  have hne : ¬ c = 'ß' := by
    intro he
    subst he
    exact absurd h (by decide)
  unfold pyUpperChar
  rw [if_neg hne]

lemma flatten_map_pyLowerChar (l : List Char) :
    (l.map pyLowerChar).flatten = l.map ascLower := by
  induction l with
  | nil => rfl
  | cons c cs ih => simp [pyLowerChar, ih]

/-! ## The capitalizer: split-based form versus one-pass form -/

lemma smartCapSpecGo_idem_ascii (l : List Char) :
    (∀ c ∈ l, c.toNat < 128) → ∀ b,
      smartCapSpecGo b (smartCapSpecGo b l) = smartCapSpecGo b l := by
  induction l with
  | nil => intro _ b; rfl
  | cons c cs ih =>
    intro hA b
    have hc : c.toNat < 128 := hA c (List.mem_cons_self c cs)
    have hcs : ∀ x ∈ cs, x.toNat < 128 := fun x hx => hA x (List.mem_cons_of_mem c hx)
    by_cases hd : isDelim c = true
    · simp [smartCapSpecGo, hd, ih hcs true]
    · have hd' : isDelim c = false := by simpa using hd
      cases b with
      | true =>
        have h1 : isDelim (ascUpper c) = false := isDelim_ascUpper hd'
        have h2 : (ascUpper c).toNat < 128 := ascUpper_ascii hc
        rw [show smartCapSpecGo true (c :: cs) =
            ascUpper c :: smartCapSpecGo false cs from by
          simp [smartCapSpecGo, hd', pyUpperChar_ascii hc]]
        rw [show smartCapSpecGo true (ascUpper c :: smartCapSpecGo false cs) =
            ascUpper (ascUpper c) :: smartCapSpecGo false (smartCapSpecGo false cs) from by
          simp [smartCapSpecGo, h1, pyUpperChar_ascii h2]]
        rw [ascUpper_idem, ih hcs false]
      | false =>
        have h1 : isDelim (ascLower c) = false := isDelim_ascLower hd'
        rw [show smartCapSpecGo false (c :: cs) =
            ascLower c :: smartCapSpecGo false cs from by
          simp [smartCapSpecGo, hd', pyLowerChar]]
        rw [show smartCapSpecGo false (ascLower c :: smartCapSpecGo false cs) =
            ascLower (ascLower c) :: smartCapSpecGo false (smartCapSpecGo false cs) from by
          simp [smartCapSpecGo, h1, pyLowerChar]]
        rw [ascLower_idem, ih hcs false]

lemma splitKeep_ne_nil (l : List Char) : splitKeep l ≠ [] := by
  cases l with
  | nil => simp [splitKeep]
  | cons c cs =>
    by_cases hd : isDelim c
    · simp [splitKeep, hd]
    · simp only [splitKeep, hd, if_false, Bool.false_eq_true]
      cases h : splitKeep cs <;> simp

def joinParts (ps : List (List Char)) : List Char :=
  (ps.map (fun p => if p ∈ delimPieces then p else cap_seg p)).flatten

lemma joinParts_cons (p : List Char) (ps : List (List Char)) :
    joinParts (p :: ps) = (if p ∈ delimPieces then p else cap_seg p) ++ joinParts ps := by
  simp [joinParts]

lemma delim_singleton_mem {c : Char} (h : isDelim c = true) : [c] ∈ delimPieces := by
  have : (c = '-' ∨ c = '’') ∨ c = '\x27' := by
    simpa [isDelim] using h
  rcases this with (h1 | h1) | h1 <;> subst h1 <;> decide

lemma joinParts_splitKeep (l : List Char) :
    joinParts (splitKeep l) = smartCapSpecGo true l ∧
    ∀ h tl, splitKeep l = h :: tl →
      h.map ascLower ++ joinParts tl = smartCapSpecGo false l := by
  induction l with
  | nil =>
    refine ⟨by decide, ?_⟩
    intro h tl he
    simp only [splitKeep] at he
    injection he with he1 he2
    subst he1
    subst he2
    decide
  | cons c cs ih =>
    by_cases hd : isDelim c = true
    · have hc : [c] ∈ delimPieces := delim_singleton_mem hd
      have hsk : splitKeep (c :: cs) = [] :: [c] :: splitKeep cs := by
        simp [splitKeep, hd]
      refine ⟨?_, ?_⟩
      · rw [hsk, joinParts_cons, joinParts_cons, if_neg (by decide), if_pos hc]
        rw [ih.1]
        simp [cap_seg, smartCapSpecGo, hd]
      · intro h tl he
        rw [hsk] at he
        injection he with he1 he2
        subst he1
        subst he2
        rw [List.map_nil, List.nil_append, joinParts_cons, if_pos hc]
        rw [ih.1]
        simp [smartCapSpecGo, hd]
    · have hd' : isDelim c = false := by simpa using hd
      obtain ⟨h, tl, hsk0⟩ : ∃ h tl, splitKeep cs = h :: tl := by
        cases hx : splitKeep cs with
        | nil => exact absurd hx (splitKeep_ne_nil cs)
        | cons a b => exact ⟨a, b, rfl⟩
      have hsk : splitKeep (c :: cs) = (c :: h) :: tl := by
        simp [splitKeep, hd', hsk0]
      have hnd : (c :: h) ∉ delimPieces := by
        intro hmem
        have hct : isDelim c = true := by
          simp only [delimPieces, List.mem_cons, List.mem_singleton,
            List.not_mem_nil, or_false] at hmem
          rcases hmem with h1 | h1 | h1 <;>
            (injection h1 with e1 e2; subst e1; decide)
        rw [hd'] at hct
        exact Bool.false_ne_true hct
      refine ⟨?_, ?_⟩
      · rw [hsk, joinParts_cons, if_neg hnd]
        show (pyUpperChar c ++ (h.map pyLowerChar).flatten) ++ joinParts tl = _
        rw [flatten_map_pyLowerChar, List.append_assoc, ih.2 h tl hsk0]
        simp [smartCapSpecGo, hd']
      · intro h2 t2 he
        rw [hsk] at he
        injection he with he1 he2
        subst he1
        subst he2
        rw [List.map_cons, List.cons_append, ih.2 h tl hsk0]
        simp [smartCapSpecGo, hd', pyLowerChar]

lemma smart_cap_piece_eq_spec (s : String) : smart_cap_piece s = smartCapSpec s := by
  by_cases h : s = ""
  · subst h
    rfl
  · unfold smart_cap_piece smartCapSpec
    rw [if_neg h]
    show String.mk (joinParts (splitKeep s.data)) = _
    rw [(joinParts_splitKeep s.data).1]

/-! ## Claims C4, C5, C6 -/

/-- C5: smart_cap_piece splits its token on hyphen, ASCII apostrophe and
right single quotation mark, keeps the delimiters as standalone segments,
capitalizes every other segment (first character uppercased, the rest
lowercased, an empty segment staying empty), and rejoins in order;
equivalently, the one-pass segment-start description smartCapSpec.  The
three examples of the claim are included. -/
theorem smart_cap_piece_spec_c5 :
    (∀ s : String, smart_cap_piece s = smartCapSpec s) ∧
    smart_cap_piece "o’brien" = "O’Brien" ∧
    smart_cap_piece "mary-anne" = "Mary-Anne" ∧
    smart_cap_piece "" = "" :=
  ⟨smart_cap_piece_eq_spec, by decide, by decide, rfl⟩

/-- C6 counterexample: the capitalizer is not idempotent on every token —
the sharp s uppercases to SS, which re-capitalizes to Ss. -/
theorem smart_cap_piece_idem_c6_counterexample :
    smart_cap_piece "ß" = "SS" ∧ smart_cap_piece (smart_cap_piece "ß") = "Ss" ∧
    smart_cap_piece (smart_cap_piece "ß") ≠ smart_cap_piece "ß" :=
  ⟨by decide, by decide, by decide⟩

/-- C6 (amended): smart_cap_piece is idempotent on every token consisting
of ASCII characters; one-to-many Unicode case expansions such as the sharp
s break idempotence in general. -/
theorem smart_cap_piece_idem_c6 (s : String) (h : ∀ c ∈ s.data, c.toNat < 128) :
    smart_cap_piece (smart_cap_piece s) = smart_cap_piece s := by
  rw [smart_cap_piece_eq_spec (smart_cap_piece s), smart_cap_piece_eq_spec s]
  unfold smartCapSpec
  show String.mk (smartCapSpecGo true (smartCapSpecGo true s.data)) = _
  rw [smartCapSpecGo_idem_ascii s.data h true]

/-- C6 witness: idempotence applied at a concrete ASCII token. -/
theorem smart_cap_piece_idem_c6_witness :
    smart_cap_piece (smart_cap_piece "mary-anne") = smart_cap_piece "mary-anne" :=
  smart_cap_piece_idem_c6 "mary-anne" (by decide)

/-- C4: the claim says every character that is not an ASCII digit is
removed, and phoneSpec renders exactly that description; but the source's
non-digit substitution leaves every Unicode decimal digit in place, so the
Arabic-Indic digit five (U+0665) survives normalize_phone where the claim
demands its removal.  The claim's three ASCII examples do hold. -/
theorem normalize_phone_c4_code_bug :
    normalize_phone "\u0665" = "\u0665" ∧ phoneSpec "\u0665" = "" ∧
    normalize_phone "+1 (555) 123-4567" = "5551234567" ∧
    normalize_phone "5551234567" = "5551234567" ∧
    normalize_phone "" = "" :=
  ⟨by decide, by decide, by decide, by decide, rfl⟩

/-! ## Resolver: the lowercased-name dict takes the rightmost column -/

lemma find?_map_overwrite (k v : String) (m : List (String × String)) :
    (m.map (fun p => if p.1 = k then (k, v) else p)).find? (fun p => p.1 = k) =
      (m.find? (fun p => p.1 = k)).map (fun _ => (k, v)) := by
  induction m with
  | nil => rfl
  | cons a as ih =>
    by_cases ha : a.1 = k
    · simp [List.find?_cons, ha]
    · simp only [List.map_cons, if_neg ha]
      rw [List.find?_cons, List.find?_cons]
      simp only [decide_eq_false ha]
      exact ih

lemma find?_dictInsert_same (m : List (String × String)) (k v : String) :
    (dictInsert m k v).find? (fun p => p.1 = k) = some (k, v) := by
  unfold dictInsert
  by_cases h : m.any (fun p => p.1 = k)
  · rw [if_pos h, find?_map_overwrite]
    cases hf : m.find? (fun p => p.1 = k) with
    | none =>
      rw [List.find?_eq_none] at hf
      obtain ⟨x, hx1, hx2⟩ := List.any_eq_true.mp h
      exact absurd hx2 (hf x hx1)
    | some a => rfl
  · rw [if_neg h, List.find?_append]
    have hm : m.find? (fun p => p.1 = k) = none := by
      rw [List.find?_eq_none]
      intro x hx hpx
      exact h (List.any_eq_true.mpr ⟨x, hx, hpx⟩)
    rw [hm]
    simp [List.find?_cons]

lemma find?_map_overwrite_other {k k' : String} (v : String) (hne : k' ≠ k)
    (m : List (String × String)) :
    (m.map (fun p => if p.1 = k' then (k', v) else p)).find? (fun p => p.1 = k) =
      m.find? (fun p => p.1 = k) := by
  induction m with
  | nil => rfl
  | cons a as ih =>
    by_cases ha : a.1 = k'
    · have hak : ¬ a.1 = k := by rw [ha]; exact hne
      simp only [List.map_cons, if_pos ha]
      rw [List.find?_cons, List.find?_cons]
      simp only [decide_eq_false hak, decide_eq_false (show ¬ ((k', v)).1 = k from hne)]
      exact ih
    · simp only [List.map_cons, if_neg ha]
      rw [List.find?_cons, List.find?_cons]
      by_cases hak : a.1 = k
      · simp [hak]
      · simp only [decide_eq_false hak]
        exact ih

lemma find?_dictInsert_other (m : List (String × String)) {k k' : String} (v : String)
    (hne : k' ≠ k) :
    (dictInsert m k' v).find? (fun p => p.1 = k) = m.find? (fun p => p.1 = k) := by
  unfold dictInsert
  by_cases h : m.any (fun p => p.1 = k')
  · rw [if_pos h]
    exact find?_map_overwrite_other v hne m
  · rw [if_neg h, List.find?_append]
    have h1 : ([(k', v)].find? (fun p => p.1 = k)) = none := by
      simp [List.find?_cons, hne]
    rw [h1]
    cases m.find? (fun p => p.1 = k) <;> rfl

lemma buildColsDict_find? (names : List String) (k : String) :
    ((buildColsDict names).find? (fun p => p.1 = k)).map (fun p => p.2) =
      lastMatching names k := by
  unfold buildColsDict lastMatching
  induction names using List.reverseRecOn with
  | nil => rfl
  | append_singleton l c ih =>
    rw [List.foldl_append, List.filter_append]
    simp only [List.foldl_cons, List.foldl_nil]
    by_cases hc : pyLowerStr c = k
    · rw [hc, find?_dictInsert_same]
      have h1 : List.filter (fun c => decide (pyLowerStr c = k)) [c] = [c] := by
        simp [List.filter, hc]
      rw [h1, List.getLast?_concat]
      rfl
    · rw [find?_dictInsert_other _ _ hc, ih]
      have : List.filter (fun c => decide (pyLowerStr c = k)) [c] = [] := by
        simp [List.filter, hc]
      rw [this, List.append_nil]

/-- The resolver's case-insensitive lookup selects the rightmost column
whose lowercased name is the key. -/
lemma colsGet_eq_lastMatching (t : Table) (k : String) :
    colsGet t k = lastMatching (colNames t) k :=
  buildColsDict_find? (colNames t) k

/-! ## Projection helpers -/

lemma getD_replicate (n i : Nat) : (List.replicate n ("" : String)).getD i "" = "" := by
  rw [List.getD_eq_getElem?_getD, List.getElem?_replicate]
  by_cases h : i < n
  · rw [if_pos h]
    rfl
  · rw [if_neg h]
    rfl

lemma getD_map_of_lt (f : String → String) (l : List String) {i : Nat} (hi : i < l.length) :
    (l.map f).getD i "" = f (l.getD i "") := by
  rw [List.getD_eq_getElem?_getD, List.getD_eq_getElem?_getD, List.getElem?_map,
    List.getElem?_eq_getElem hi]
  rfl

lemma mem_of_colsGet {t : Table} {k c : String} (h : colsGet t k = some c) :
    c ∈ colNames t := by
  rw [colsGet_eq_lastMatching] at h
  unfold lastMatching at h
  obtain ⟨hne, he⟩ := List.mem_getLast?_eq_getLast (Option.mem_def.mpr h)
  refine List.mem_of_mem_filter (p := fun c => pyLowerStr c = k) ?_
  rw [he]
  exact List.getLast_mem hne

lemma getCol_length_of_mem {t : Table} (hw : Wf t) {c : String} (hc : c ∈ colNames t) :
    (getCol t c).length = numRows t := by
  unfold getCol
  obtain ⟨p, hp, hpc⟩ := List.mem_map.mp hc
  cases hf : t.cols.find? (fun q => q.1 = c) with
  | none =>
    rw [List.find?_eq_none] at hf
    have h2 := hf p hp
    simp [hpc] at h2
  | some q =>
    have hq := List.mem_of_find?_eq_some hf
    simpa using hw q hq

/-- The cell an optional resolved source column supplies for row i. -/
def roleCell (t : Table) (src : Option String) (i : Nat) : String :=
  match src with
  | some c => (getCol t c).getD i ""
  | none => ""

lemma cleanProjected_cols (t : Table) :
    (cleanProjected t).cols =
      [("First Name", match colsGet t "name" with
          | some c => (getCol t c).map extract_first_name
          | none => List.replicate (numRows t) ""),
       ("Last Name", match colsGet t "address" with
          | some c => getCol t c
          | none => List.replicate (numRows t) ""),
       ("Email", match emailSrc t with
          | some c => (getCol t c).map normalize_email
          | none => List.replicate (numRows t) ""),
       ("Phone", match phoneSrc t with
          | some c => (getCol t c).map normalize_phone
          | none => List.replicate (numRows t) ""),
       ("Status", List.replicate (numRows t) "")] := rfl

lemma roleMapD (t : Table) (hw : Wf t) (src : Option String) (f : String → String)
    (hff : f "" = "") (hsrc : ∀ c, src = some c → c ∈ colNames t) {i : Nat}
    (hi : i < numRows t) :
    (match src with
      | some c => (getCol t c).map f
      | none => List.replicate (numRows t) "").getD i "" = f (roleCell t src i) := by
  cases src with
  | none => simp [roleCell, getD_replicate, hff]
  | some c =>
    have hlen : (getCol t c).length = numRows t := getCol_length_of_mem hw (hsrc c rfl)
    simp only [roleCell]
    exact getD_map_of_lt f _ (by rw [hlen]; exact hi)

lemma roleIdD (t : Table) (src : Option String) {i : Nat} :
    (match src with
      | some c => getCol t c
      | none => List.replicate (numRows t) "").getD i "" = roleCell t src i := by
  cases src with
  | none => simp [roleCell, getD_replicate]
  | some c => simp [roleCell]

lemma emailSrc_eq_some {t : Table} {c : String} (h : emailSrc t = some c) :
    colsGet t "email_address" = some c ∨ colsGet t "email" = some c := by
  unfold emailSrc at h
  cases hx : colsGet t "email_address" with
  | some d =>
    rw [hx] at h
    simp only [Option.orElse] at h
    exact Or.inl h
  | none =>
    rw [hx] at h
    simp only [Option.orElse] at h
    exact Or.inr h

lemma phoneSrc_eq_some {t : Table} {c : String} (h : phoneSrc t = some c) :
    colsGet t "phone_number" = some c ∨ colsGet t "phone" = some c := by
  unfold phoneSrc at h
  cases hx : colsGet t "phone_number" with
  | some d =>
    rw [hx] at h
    simp only [Option.orElse] at h
    exact Or.inl h
  | none =>
    rw [hx] at h
    simp only [Option.orElse] at h
    exact Or.inr h

instance wfDecidable (t : Table) : Decidable (Wf t) :=
  decidable_of_iff (∀ c ∈ t.cols, c.2.length = numRows t) Iff.rfl

/-! ## Example tables -/

def exampleIn : Table :=
  ⟨[("Name", ["Mary-Anne O\x27Brien"]), ("Address", ["Smith"]),
    ("Email_Address", [" A@B.COM "]), ("Phone_Number", ["1-555-123-4567"])]⟩

def exampleOut : Table :=
  ⟨[("First Name", ["Mary-Anne"]), ("Last Name", ["Smith"]),
    ("Email", ["a@b.com"]), ("Phone", ["5551234567"]), ("Status", [""])]⟩

def leadBlankIn : Table := ⟨[("Name", ["", "bob jones"]), ("Phone", ["", "15551234567"])]⟩

def leadBlankOut : Table :=
  ⟨[("First Name", ["Bob"]), ("Last Name", [""]),
    ("Email", [""]), ("Phone", ["5551234567"]), ("Status", [""])]⟩

def midBlankIn : Table := ⟨[("Name", ["al", "", "cy"])]⟩

def midBlankOut : Table :=
  ⟨[("First Name", ["Al", "", "Cy"]), ("Last Name", ["", "", ""]),
    ("Email", ["", "", ""]), ("Phone", ["", "", ""]), ("Status", ["", "", ""])]⟩

def endBlankIn : Table := ⟨[("Name", ["al", ""])]⟩

def endBlankOut : Table :=
  ⟨[("First Name", ["Al", ""]), ("Last Name", ["", ""]),
    ("Email", ["", ""]), ("Phone", ["", ""]), ("Status", ["", ""])]⟩

def dualEmailIn : Table :=
  ⟨[("Name", ["zed"]), ("Email", ["X@A.com"]), ("Email_Address", ["Y@B.com"])]⟩

def dualCaseIn : Table :=
  ⟨[("Name", ["ann"]), ("Email", ["A@X.COM"]), ("EMAIL", ["B@Y.COM"])]⟩

/-! ## Claim C1 -/

/-- C1: for each source row i of a well-formed input, the projector's row i
is built cellwise as [extract_first_name of the name cell, the
address-sourced cell verbatim, the email cell trimmed and lowercased, the
phone cell through normalize_phone, ""], the cell reading as "" when a role
is unresolved; row order is preserved (row i depends only on source row i).
The claim's one-row example is included through the full clean. -/
theorem clean_projection_c1 :
    (∀ t : Table, Wf t → ∀ i, i < numRows t →
      rowAt (cleanProjected t) i =
        [extract_first_name (roleCell t (colsGet t "name") i),
         roleCell t (colsGet t "address") i,
         normalize_email (roleCell t (emailSrc t) i),
         normalize_phone (roleCell t (phoneSrc t) i),
         ""]) ∧
    clean exampleIn = exampleOut := by
  refine ⟨?_, by decide⟩
  intro t hw i hi
  unfold rowAt
  rw [cleanProjected_cols]
  simp only [List.map_cons, List.map_nil]
  rw [roleMapD t hw _ _ rfl (fun c hc => mem_of_colsGet hc) hi]
  rw [roleIdD t]
  rw [roleMapD t hw _ _ rfl
    (fun c hc => match emailSrc_eq_some hc with
      | Or.inl h => mem_of_colsGet h
      | Or.inr h => mem_of_colsGet h) hi]
  rw [roleMapD t hw _ _ rfl
    (fun c hc => match phoneSrc_eq_some hc with
      | Or.inl h => mem_of_colsGet h
      | Or.inr h => mem_of_colsGet h) hi]
  rw [getD_replicate]

/-- C1 witness: the projection equation applied to the claim's concrete
one-row table at row 0. -/
theorem clean_projection_c1_witness :
    rowAt (cleanProjected exampleIn) 0 = ["Mary-Anne", "Smith", "a@b.com", "5551234567", ""] :=
  (clean_projection_c1.1 exampleIn (by decide) 0 (by decide)).trans (by decide)

/-! ## Claim C2 -/

lemma getD_tail_str (l : List String) (i : Nat) : l.tail.getD i "" = l.getD (i + 1) "" := by
  rw [List.getD_eq_getElem?_getD, List.getD_eq_getElem?_getD, List.getElem?_tail]

lemma rowAt_dropFirstRow (t : Table) (i : Nat) :
    rowAt (dropFirstRow t) i = rowAt t (i + 1) := by
  unfold rowAt dropFirstRow
  rw [List.map_map]
  exact List.map_congr_left (fun c _ => getD_tail_str c.2 i)

lemma numRows_dropFirstRow (t : Table) : numRows (dropFirstRow t) = numRows t - 1 := by
  unfold numRows dropFirstRow
  cases t.cols with
  | nil => rfl
  | cons a as => simp [List.length_tail]

lemma tableRows_dropFirstRow {t : Table} (h : numRows t ≠ 0) :
    tableRows (dropFirstRow t) = (tableRows t).tail := by
  unfold tableRows
  obtain ⟨n, hn⟩ : ∃ n, numRows t = n + 1 :=
    ⟨numRows t - 1, (Nat.succ_pred_eq_of_pos (Nat.pos_of_ne_zero h)).symm⟩
  rw [numRows_dropFirstRow, hn]
  simp only [Nat.add_sub_cancel]
  rw [List.range_succ_eq_map]
  simp only [List.map_cons, List.tail_cons, List.map_map]
  exact List.map_congr_left
    (fun i _ => by simpa [Function.comp] using rowAt_dropFirstRow t i)

/-- C2: after projection, exactly the leading row is removed when it exists
and all its five fields are empty, and nothing is removed otherwise; hence
an all-empty row at any later position survives.  Included concretely: a
leading all-empty row is pruned, an interior and a trailing all-empty row
are kept. -/
theorem clean_prune_c2 :
    (∀ t : Table,
      ((numRows (cleanProjected t) ≠ 0 ∧
          (rowAt (cleanProjected t) 0).all (fun s => s = "")) →
        tableRows (clean t) = (tableRows (cleanProjected t)).tail) ∧
      (¬ (numRows (cleanProjected t) ≠ 0 ∧
          (rowAt (cleanProjected t) 0).all (fun s => s = "")) →
        tableRows (clean t) = tableRows (cleanProjected t))) ∧
    clean leadBlankIn = leadBlankOut ∧
    clean midBlankIn = midBlankOut ∧
    clean endBlankIn = endBlankOut := by
  refine ⟨fun t => ⟨?_, ?_⟩, by decide, by decide, by decide⟩
  · intro h
    unfold clean pruneLeading
    rw [if_pos h]
    exact tableRows_dropFirstRow h.1
  · intro h
    unfold clean pruneLeading
    rw [if_neg h]

/-- C2 witness: the pruning equation applied to the concrete table whose
projected first row is all-empty. -/
theorem clean_prune_c2_witness :
    tableRows (clean leadBlankIn) = (tableRows (cleanProjected leadBlankIn)).tail :=
  (clean_prune_c2.1 leadBlankIn).1 (by decide)

/-! ## Claim C3 -/

lemma lastMatching_isSome_iff (names : List String) (k : String) :
    (lastMatching names k).isSome ↔ ∃ c ∈ names, pyLowerStr c = k := by
  unfold lastMatching
  rw [List.getLast?_isSome]
  constructor
  · intro h
    obtain ⟨c, hc⟩ := List.exists_mem_of_ne_nil _ h
    exact ⟨c, (List.mem_filter.mp hc).1, of_decide_eq_true (List.mem_filter.mp hc).2⟩
  · intro h
    obtain ⟨c, hc, hck⟩ := h
    exact List.ne_nil_of_mem (List.mem_filter.mpr ⟨hc, decide_eq_true hck⟩)

lemma getCol_dropFirstRow (t : Table) (nm : String) :
    getCol (dropFirstRow t) nm = (getCol t nm).tail := by
  unfold getCol dropFirstRow
  induction t.cols with
  | nil => rfl
  | cons a as ih =>
    obtain ⟨a1, a2⟩ := a
    by_cases ha : a1 = nm
    · simp [List.find?_cons, ha]
    · simp only [List.map_cons]
      rw [List.find?_cons, List.find?_cons]
      simp only [decide_eq_false ha]
      exact ih

lemma clean_col_blank {t : Table} {nm : String}
    (hproj : getCol (cleanProjected t) nm = List.replicate (numRows t) "") :
    ∀ s ∈ getCol (clean t) nm, s = "" := by
  intro s hs
  unfold clean pruneLeading at hs
  by_cases hc : numRows (cleanProjected t) ≠ 0 ∧
      (rowAt (cleanProjected t) 0).all (fun x => x = "")
  · rw [if_pos hc, getCol_dropFirstRow, hproj, List.tail_replicate] at hs
    exact List.eq_of_mem_replicate hs
  · rw [if_neg hc, hproj] at hs
    exact List.eq_of_mem_replicate hs

lemma getCol_cleanProjected_first (t : Table) :
    getCol (cleanProjected t) "First Name" =
      (match colsGet t "name" with
        | some c => (getCol t c).map extract_first_name
        | none => List.replicate (numRows t) "") := rfl

lemma getCol_cleanProjected_last (t : Table) :
    getCol (cleanProjected t) "Last Name" =
      (match colsGet t "address" with
        | some c => getCol t c
        | none => List.replicate (numRows t) "") := rfl

lemma getCol_cleanProjected_email (t : Table) :
    getCol (cleanProjected t) "Email" =
      (match emailSrc t with
        | some c => (getCol t c).map normalize_email
        | none => List.replicate (numRows t) "") := rfl

lemma getCol_cleanProjected_phone (t : Table) :
    getCol (cleanProjected t) "Phone" =
      (match phoneSrc t with
        | some c => (getCol t c).map normalize_phone
        | none => List.replicate (numRows t) "") := rfl

/-- C3: column matching is case-insensitive; email resolves to an
email_address column when one exists and otherwise to an email column (so
email_address wins when both exist, as in the concrete example), phone to
phone_number and otherwise phone; an unresolved role yields an all-empty
output column rather than an error. -/
theorem resolver_precedence_c3 :
    (∀ t : Table, (∃ c ∈ colNames t, pyLowerStr c = "email_address") →
        emailSrc t = lastMatching (colNames t) "email_address") ∧
    (∀ t : Table, ¬ (∃ c ∈ colNames t, pyLowerStr c = "email_address") →
        emailSrc t = lastMatching (colNames t) "email") ∧
    (∀ t : Table, (∃ c ∈ colNames t, pyLowerStr c = "phone_number") →
        phoneSrc t = lastMatching (colNames t) "phone_number") ∧
    (∀ t : Table, ¬ (∃ c ∈ colNames t, pyLowerStr c = "phone_number") →
        phoneSrc t = lastMatching (colNames t) "phone") ∧
    (∀ t : Table, colsGet t "name" = none →
        ∀ s ∈ getCol (clean t) "First Name", s = "") ∧
    (∀ t : Table, colsGet t "address" = none →
        ∀ s ∈ getCol (clean t) "Last Name", s = "") ∧
    (∀ t : Table, emailSrc t = none → ∀ s ∈ getCol (clean t) "Email", s = "") ∧
    (∀ t : Table, phoneSrc t = none → ∀ s ∈ getCol (clean t) "Phone", s = "") ∧
    getCol (clean dualEmailIn) "Email" = ["y@b.com"] := by
  refine ⟨?_, ?_, ?_, ?_, ?_, ?_, ?_, ?_, by decide⟩
  · intro t h
    unfold emailSrc
    rw [colsGet_eq_lastMatching]
    obtain ⟨c, hc⟩ :=
      Option.isSome_iff_exists.mp ((lastMatching_isSome_iff _ _).mpr h)
    rw [hc]
    rfl
  · intro t h
    unfold emailSrc
    rw [colsGet_eq_lastMatching, colsGet_eq_lastMatching]
    have h2 : lastMatching (colNames t) "email_address" = none := by
      cases hx : lastMatching (colNames t) "email_address" with
      | none => rfl
      | some c =>
        exact absurd ((lastMatching_isSome_iff _ _).mp (by rw [hx]; rfl)) h
    rw [h2]
    rfl
  · intro t h
    unfold phoneSrc
    rw [colsGet_eq_lastMatching]
    obtain ⟨c, hc⟩ :=
      Option.isSome_iff_exists.mp ((lastMatching_isSome_iff _ _).mpr h)
    rw [hc]
    rfl
  · intro t h
    unfold phoneSrc
    rw [colsGet_eq_lastMatching, colsGet_eq_lastMatching]
    have h2 : lastMatching (colNames t) "phone_number" = none := by
      cases hx : lastMatching (colNames t) "phone_number" with
      | none => rfl
      | some c =>
        exact absurd ((lastMatching_isSome_iff _ _).mp (by rw [hx]; rfl)) h
    rw [h2]
    rfl
  · intro t h
    exact clean_col_blank ((getCol_cleanProjected_first t).trans (by rw [h]))
  · intro t h
    exact clean_col_blank ((getCol_cleanProjected_last t).trans (by rw [h]))
  · intro t h
    exact clean_col_blank ((getCol_cleanProjected_email t).trans (by rw [h]))
  · intro t h
    exact clean_col_blank ((getCol_cleanProjected_phone t).trans (by rw [h]))

/-- C3 witness: the email_address-wins equation applied to the concrete
table carrying both an Email and an Email_Address column. -/
theorem resolver_precedence_c3_witness :
    emailSrc dualEmailIn = lastMatching (colNames dualEmailIn) "email_address" :=
  resolver_precedence_c3.1 dualEmailIn (by decide)

/-! ## Claim C8 -/

lemma colNames_dropFirstRow (t : Table) : colNames (dropFirstRow t) = colNames t := by
  unfold colNames dropFirstRow
  rw [List.map_map]
  rfl

lemma colNames_clean (t : Table) : colNames (clean t) = EXPECTED := by
  unfold clean pruneLeading
  by_cases hc : numRows (cleanProjected t) ≠ 0 ∧
      (rowAt (cleanProjected t) 0).all (fun s => s = "")
  · rw [if_pos hc, colNames_dropFirstRow]
    rfl
  · rw [if_neg hc]
    rfl

/-- C8: whatever the input table's columns, the cleaned table's column
names are exactly First Name, Last Name, Email, Phone, Status in that
order, and so are the merged table's for any nonempty batch of cleaned
tables. -/
theorem schema_fixed_c8 :
    (∀ t : Table, colNames (clean t) = EXPECTED) ∧
    (∀ ts : List Table, ts ≠ [] →
      colNames (concatTables (ts.map clean)) = EXPECTED) := by
  refine ⟨colNames_clean, ?_⟩
  intro ts hne
  cases ts with
  | nil => exact absurd rfl hne
  | cons t rest =>
    show colNames ⟨(colNames (clean t)).map _⟩ = EXPECTED
    unfold colNames
    rw [List.map_map]
    have h2 : colNames (clean t) = EXPECTED := colNames_clean t
    unfold colNames at h2
    rw [show ((fun c => c.1) ∘ fun nm =>
        (nm, ((clean t :: rest.map clean).map (fun u => getCol u nm)).flatten)) =
        fun nm => nm from rfl]
    rw [List.map_id', h2]

/-- C8 witness: the merged-schema equation applied to a singleton batch. -/
theorem schema_fixed_c8_witness :
    colNames (concatTables ([exampleIn].map clean)) = EXPECTED :=
  schema_fixed_c8.2 [exampleIn] (by decide)

/-! ## Claim C10 -/

/-- C10: the resolver's dict maps a lowercased name to the rightmost input
column bearing it (later assignments overwrite earlier ones), so with
duplicate case-variant columns the last one supplies the output values, as
the Email/EMAIL example shows concretely. -/
theorem resolver_last_duplicate_c10 :
    (∀ (t : Table) (k : String), colsGet t k = lastMatching (colNames t) k) ∧
    getCol (clean dualCaseIn) "Email" = ["b@y.com"] :=
  ⟨colsGet_eq_lastMatching, by decide⟩

/-! ## Claim C7 -/

/-- C7: the reader tries utf-8, utf-8-sig, latin-1 in that fixed order,
rewinding to the start before every retry so each attempt reads the whole
input; when all three fail it makes one final default-encoding attempt
whose outcome, error included, is returned as is — an error value, never a
partial table, on failure. -/
theorem reader_fallback_c7 :
    ∀ (tryEnc : Option String → List Char → Except Unit Table) (f : CharFile),
      f.pos = 0 →
      (load_csv_any tryEnc f).1 = loadFirstSuccess tryEnc f.data := by
  intro tryEnc f h
  obtain ⟨data, pos⟩ := f
  simp only at h
  subst h
  simp only [load_csv_any, encCandidates, loadFirstSuccess]
  cases h1 : tryEnc (some "utf-8") data with
  | ok t => simp [loadGo, runAttempt, readRest, seek0, h1]
  | error e1 =>
    cases h2 : tryEnc (some "utf-8-sig") data with
    | ok t => simp [loadGo, runAttempt, readRest, seek0, h1, h2]
    | error e2 =>
      cases h3 : tryEnc (some "latin-1") data with
      | ok t => simp [loadGo, runAttempt, readRest, seek0, h1, h2, h3]
      | error e3 => simp [loadGo, runAttempt, readRest, seek0, h1, h2, h3]

/-- A decode-and-parse stub that only succeeds under the latin-1 label. -/
def latinOnly : Option String → List Char → Except Unit Table :=
  fun e l => if e = some "latin-1" then .ok ⟨[("A", [String.mk l])]⟩ else .error ()

/-- C7 witness: the fallback-order equation applied to a concrete
single-character file and a concrete decoder family. -/
theorem reader_fallback_c7_witness :
    (load_csv_any latinOnly ⟨['x'], 0⟩).1 = loadFirstSuccess latinOnly ['x'] :=
  reader_fallback_c7 latinOnly ⟨['x'], 0⟩ rfl

/-! ## CSV machine run lemmas (for claim C9) -/

end HatchCsv
